import Mathlib

/-!
Shallow embedding of the message / versioned-transaction / address-lookup-table /
instructions-sysvar core of the `solana-sdk` repository, together with proofs
settling the frozen claims about it.

Machine integers (`u8`, `u16`, `u64`, `usize`) are modelled as `Nat`, with
explicit `% 2 ^ w` at the places where the source performs a lossy cast
(`as u16`) or where wrapping matters.  Fallible Rust code (`Result`) becomes
`Except`; Rust code that can panic becomes `Option` with `none` standing for
the panic.  Saturating subtraction on unsigned integers coincides with `Nat`
subtraction.
-/

/-- A 32-byte account/program address (`solana_pubkey::Pubkey`), modelled as its
byte list.  Equality is byte-wise, as in the source. -/
structure Pubkey where
  bytes : List Nat
deriving DecidableEq, Repr

instance : Inhabited Pubkey := ⟨⟨List.replicate 32 0⟩⟩

/-- A 32-byte hash (`solana_hash::Hash`), modelled as its byte list. -/
structure Hash where
  bytes : List Nat
deriving DecidableEq, Repr

instance : Inhabited Hash := ⟨⟨List.replicate 32 0⟩⟩

instance {ε α : Type} [DecidableEq ε] [DecidableEq α] : DecidableEq (Except ε α) := fun a b =>
  match a, b with
  | .error e, .error f => decidable_of_iff (e = f) (by simp)
  | .ok a, .ok b => decidable_of_iff (a = b) (by simp)
  | .error _, .ok _ => isFalse (fun h => by cases h)
  | .ok _, .error _ => isFalse (fun h => by cases h)

/-- The system program id, `11111111111111111111111111111111` in base58:
thirty-two zero bytes (`solana_sdk_ids::system_program`). -/
def system_program_id : Pubkey := ⟨List.replicate 32 0⟩

/-- Address equality check of `solana_sdk_ids::system_program::check_id`. -/
def system_program_check_id (p : Pubkey) : Bool := p == system_program_id

/-- Error type of `solana_sanitize::SanitizeError`. -/
inductive SanitizeError where
  | IndexOutOfBounds
  | ValueOutOfBounds
  | InvalidValue
deriving DecidableEq, Repr

/-- Message header (`solana_message::MessageHeader`): three `u8` counts that
partition the account-key table into signer/non-signer and writable/readonly
regions. -/
structure MessageHeader where
  num_required_signatures : Nat
  num_readonly_signed_accounts : Nat
  num_readonly_unsigned_accounts : Nat
deriving DecidableEq, Repr

/-- A compiled instruction (`solana_message::compiled_instruction::CompiledInstruction`):
program id and accounts are `u8` indices into the message's account-key table. -/
structure CompiledInstruction where
  program_id_index : Nat
  accounts : List Nat
  data : List Nat
deriving DecidableEq, Repr

/-- The legacy transaction message (`solana_message::legacy::Message`). -/
structure Message where
  header : MessageHeader
  account_keys : List Pubkey
  recent_blockhash : Hash
  instructions : List CompiledInstruction
deriving DecidableEq, Repr

/-- Per-instruction loop of `<Message as Sanitize>::sanitize`
(src/program/src/message_inner/legacy.rs lines 98-111): each compiled
instruction's program-id index must be in range and nonzero ("a program cannot
be a payer"), and every account index must be in range.  Each violation
returns `SanitizeError::IndexOutOfBounds`; the loop returns at the first
violation. -/
def sanitize_instructions (num_keys : Nat) : List CompiledInstruction → Except SanitizeError Unit
  | [] => .ok ()
  | ci :: rest =>
    if ci.program_id_index ≥ num_keys then .error .IndexOutOfBounds
    else if ci.program_id_index = 0 then .error .IndexOutOfBounds
    else if ci.accounts.any (fun ai => ai ≥ num_keys) then .error .IndexOutOfBounds
    else sanitize_instructions num_keys rest

/-- `<Message as Sanitize>::sanitize` (src/program/src/message_inner/legacy.rs
lines 84-116).  After the header and instruction checks the source also calls
`sanitize` on `account_keys`, `recent_blockhash` and `instructions`; those are
the no-op default implementations of the `Sanitize` trait for `Pubkey`, `Hash`
and `CompiledInstruction` (lifted element-wise over `Vec`), so they always
return `Ok(())` and are omitted here. -/
def Message.sanitize (m : Message) : Except SanitizeError Unit :=
  if m.header.num_required_signatures + m.header.num_readonly_unsigned_accounts
      > m.account_keys.length then
    .error .IndexOutOfBounds
  else if m.header.num_readonly_signed_accounts ≥ m.header.num_required_signatures then
    .error .IndexOutOfBounds
  else
    sanitize_instructions m.account_keys.length m.instructions

/-- `Message::is_writable_index` (src/program/src/message_inner/legacy.rs lines
500-508).  `saturating_sub` on `usize` is `Nat` subtraction. -/
def Message.is_writable_index (m : Message) (i : Nat) : Bool :=
  decide (i < m.header.num_required_signatures - m.header.num_readonly_signed_accounts)
    || (decide (i ≥ m.header.num_required_signatures)
        && decide (i < m.account_keys.length - m.header.num_readonly_unsigned_accounts))

/-- `Message::is_signer` (src/program/src/message_inner/legacy.rs lines 542-544). -/
def Message.is_signer (m : Message) (i : Nat) : Bool :=
  decide (i < m.header.num_required_signatures)

/-- Error type of `solana_signer::SignerError` (the variants used by
`VersionedTransaction::try_new`). -/
inductive SignerError where
  | NotEnoughSigners
  | TooManySigners
  | KeypairPubkeyMismatch
  | InvalidInput (s : String)
deriving DecidableEq, Repr

/-- Modelled from the spec: the `v0::Message` variant of the versioned message
(the `solana-message` crate's `versioned`/`v0` modules are not under `src/`).
Per the spec §3, it carries a header, the static account keys, a recent
blockhash, compiled calls and address-table-lookup references; only the
components read by the claims are represented. -/
structure V0Message where
  header : MessageHeader
  account_keys : List Pubkey
  recent_blockhash : Hash
  instructions : List CompiledInstruction
deriving DecidableEq, Repr

/-- Modelled from the spec: `solana_message::VersionedMessage`, a tagged choice
between the legacy message and the v0 table-lookup format. -/
inductive VersionedMessage where
  | Legacy (m : Message)
  | V0 (m : V0Message)
deriving DecidableEq, Repr

/-- Modelled from the spec: `VersionedMessage::header` exposes the header
uniformly over both variants. -/
def VersionedMessage.header : VersionedMessage → MessageHeader
  | .Legacy m => m.header
  | .V0 m => m.header

/-- Modelled from the spec: `VersionedMessage::static_account_keys` is the
account-key table excluding any table-lookup-derived keys; for the legacy
variant that is the whole `account_keys` list. -/
def VersionedMessage.static_account_keys : VersionedMessage → List Pubkey
  | .Legacy m => m.account_keys
  | .V0 m => m.account_keys

/-- Modelled from the spec: `VersionedMessage::instructions` exposes the
compiled calls uniformly over both variants. -/
def VersionedMessage.instructions : VersionedMessage → List CompiledInstruction
  | .Legacy m => m.instructions
  | .V0 m => m.instructions

/-- A signing identity as seen by `VersionedTransaction::try_new` through the
`Signers` trait: an address plus the (externally supplied, Ed25519) signing
primitive, which the spec excludes as an external collaborator.  `σ` is the
signature type.  `try_pubkeys` is `map pubkey` and `try_sign_message` is
`map (sign ·)`, in the same order, per the `Signers` contract. -/
structure Signer (σ : Type) where
  pubkey : Pubkey
  sign : List Nat → σ


/-- A versioned transaction (`solana_transaction::versioned::VersionedTransaction`):
positional signatures plus the message.  `σ` is the signature type. -/
structure VersionedTransaction (σ : Type) where
  signatures : List σ
  message : VersionedMessage

/-- `VersionedTransaction::try_new` (src/transaction/src/versioned/mod.rs lines
73-118).  `serialize` stands for `VersionedMessage::serialize` (the bincode
wire encoding, an external collaborator); the claims quantify over it.
`Option.mapM` mirrors `collect::<Result<_, _>>` with the fixed error of the
source, and `List.findIdx?` mirrors `Iterator::position`. -/
def VersionedTransaction.try_new {σ : Type} (serialize : VersionedMessage → List Nat)
    (message : VersionedMessage) (keypairs : List (Signer σ)) :
    Except SignerError (VersionedTransaction σ) :=
  let static_account_keys := message.static_account_keys
  if static_account_keys.length < message.header.num_required_signatures then
    .error (.InvalidInput "invalid message")
  else
    let signer_keys := keypairs.map (·.pubkey)
    let expected_signer_keys := static_account_keys.take message.header.num_required_signatures
    match compare signer_keys.length expected_signer_keys.length with
    | .gt => .error .TooManySigners
    | .lt => .error .NotEnoughSigners
    | .eq =>
      let message_data := serialize message
      match expected_signer_keys.mapM
          (fun signer_key => signer_keys.findIdx? (fun key => key == signer_key)) with
      | none => .error .KeypairPubkeyMismatch
      | some signature_indexes =>
        let unordered_signatures := keypairs.map (fun keypair => keypair.sign message_data)
        match signature_indexes.mapM (fun index => unordered_signatures.get? index) with
        | none => .error (.InvalidInput "invalid keypairs")
        | some signatures => .ok { signatures := signatures, message := message }

/-- `VersionedTransaction::sanitize_signatures_inner`
(src/transaction/src/versioned/mod.rs lines 134-152). -/
def VersionedTransaction.sanitize_signatures_inner
    (num_required_signatures num_static_account_keys num_signatures : Nat) :
    Except SanitizeError Unit :=
  match compare num_required_signatures num_signatures with
  | .gt => .error .IndexOutOfBounds
  | .lt => .error .InvalidValue
  | .eq =>
    -- Signatures are verified before message keys are loaded so all signers
    -- must correspond to static account keys.
    if num_signatures > num_static_account_keys then .error .IndexOutOfBounds
    else .ok ()

/-- Modelled from the spec: `NONCED_TX_MARKER_IX_INDEX` (declared in the
`solana-transaction` crate root, not under `src/`): the durable-nonce marker
is the "very first compiled call (fixed index 0)". -/
def NONCED_TX_MARKER_IX_INDEX : Nat := 0

/-- Inlined `SystemInstruction::AdvanceNonceAccount` instruction data
(src/program/src/message_inner/inline_nonce.rs line 11). -/
def ADVANCE_NONCE_DATA : List Nat := [4, 0, 0, 0]

/-- `is_advance_nonce_instruction_data`
(src/program/src/message_inner/inline_nonce.rs lines 18-20):
`data.get(0..4) == Some(&ADVANCE_NONCE_DATA)`, where `get(0..4)` is `None`
when fewer than 4 bytes are present. -/
def is_advance_nonce_instruction_data (data : List Nat) : Bool :=
  decide (4 ≤ data.length) && (data.take 4 == ADVANCE_NONCE_DATA)

/-- `VersionedTransaction::uses_durable_nonce`
(src/transaction/src/versioned/mod.rs lines 207-220). -/
def VersionedTransaction.uses_durable_nonce {σ : Type} (tx : VersionedTransaction σ) : Bool :=
  match tx.message.instructions.get? NONCED_TX_MARKER_IX_INDEX with
  | none => false
  | some instruction =>
    (match tx.message.static_account_keys.get? instruction.program_id_index with
     | some program_id => system_program_check_id program_id
     | none => false)
      && is_advance_nonce_instruction_data instruction.data

/-- Modelled from the spec: `MAX_ENTRIES` of the `solana-slot-hashes` crate
(not under `src/`), "the fixed capacity of that history"; the spec fixes
`MAX_ENTRIES = 512`. -/
def MAX_ENTRIES : Nat := 512

/-- Slot number (`u64`). -/
def U64_MAX : Nat := 2 ^ 64 - 1

/-- Modelled from the spec: the slot-hashes sysvar, "an ordered,
descending-by-slot sequence of `(slot, hash)` pairs, supporting exact-slot
position lookup" (`solana_slot_hashes::SlotHashes`, not under `src/`). -/
def SlotHashes : Type := List (Nat × Hash)

/-- Modelled from the spec: `SlotHashes::position`, the exact-slot position
lookup ("consumed via exact-slot binary search"); on the strictly descending
list the binary search returns the index of the unique matching slot, i.e. the
first-occurrence index. -/
def SlotHashes.position (slot_hashes : SlotHashes) (slot : Nat) : Option Nat :=
  List.findIdx? (fun entry => entry.1 == slot) slot_hashes

/-- Activation status of a lookup table
(src/program/src/address_lookup_table_interface_inner/state.rs lines 30-34). -/
inductive LookupTableStatus where
  | Activated
  | Deactivating (remaining_blocks : Nat)
  | Deactivated
deriving DecidableEq, Repr

/-- Address lookup table metadata
(src/program/src/address_lookup_table_interface_inner/state.rs lines 38-55). -/
structure LookupTableMeta where
  deactivation_slot : Nat
  last_extended_slot : Nat
  last_extended_slot_start_index : Nat
  authority : Option Pubkey
deriving DecidableEq, Repr

/-- `LookupTableMeta::status`
(src/program/src/address_lookup_table_interface_inner/state.rs lines 87-110).
`saturating_add`/`saturating_sub` on in-range `usize` values are `Nat`
addition/subtraction. -/
def LookupTableMeta.status (meta : LookupTableMeta) (current_slot : Nat)
    (slot_hashes : SlotHashes) : LookupTableStatus :=
  if meta.deactivation_slot = U64_MAX then
    .Activated
  else if meta.deactivation_slot = current_slot then
    .Deactivating (MAX_ENTRIES + 1)
  else
    match slot_hashes.position meta.deactivation_slot with
    | some slot_hash_position => .Deactivating (MAX_ENTRIES - slot_hash_position)
    | none => .Deactivated

/-- `LookupTableMeta::is_active`
(src/program/src/address_lookup_table_interface_inner/state.rs lines 78-84). -/
def LookupTableMeta.is_active (meta : LookupTableMeta) (current_slot : Nat)
    (slot_hashes : SlotHashes) : Bool :=
  match meta.status current_slot slot_hashes with
  | .Activated => true
  | .Deactivating _ => true
  | .Deactivated => false

/-- Error type of the address-lookup-table interface
(`AddressLookupError`; its declaration module is not under `src/`, variants per
the spec's error taxonomy §7 and the uses in `state.rs`). -/
inductive AddressLookupError where
  | LookupTableAccountNotFound
  | InvalidAccountOwner
  | InvalidAccountData
  | InvalidLookupIndex
deriving DecidableEq, Repr

/-- An address lookup table
(src/program/src/address_lookup_table_interface_inner/state.rs lines 124-127).
The `Cow` borrow is irrelevant to the semantics and dropped. -/
structure AddressLookupTable where
  meta : LookupTableMeta
  addresses : List Pubkey
deriving DecidableEq, Repr

/-- `AddressLookupTable::get_active_addresses_len`
(src/program/src/address_lookup_table_interface_inner/state.rs lines 131-153). -/
def AddressLookupTable.get_active_addresses_len (table : AddressLookupTable)
    (current_slot : Nat) (slot_hashes : SlotHashes) : Except AddressLookupError Nat :=
  if !(table.meta.is_active current_slot slot_hashes) then
    -- Once a lookup table is no longer active, it can be closed at any point,
    -- so returning a specific error for deactivated lookup tables could
    -- result in a race condition.
    .error .LookupTableAccountNotFound
  else
    .ok (if current_slot > table.meta.last_extended_slot then
            table.addresses.length
         else
            table.meta.last_extended_slot_start_index)

/-- `AddressLookupTable::lookup` composed with `AddressLookupTable::lookup_iter`
(src/program/src/address_lookup_table_interface_inner/state.rs lines 158-185).
The outer `Option` models the Rust panic: `&self.addresses[0..active_addresses_len]`
panics (`none`) when the active length exceeds the stored address count.
`List.mapM` over `Option` mirrors `collect::<Option<Vec<_>>>`: any single
out-of-range index makes the whole lookup fail. -/
def AddressLookupTable.lookup (table : AddressLookupTable) (current_slot : Nat)
    (indexes : List Nat) (slot_hashes : SlotHashes) :
    Option (Except AddressLookupError (List Pubkey)) :=
  match table.get_active_addresses_len current_slot slot_hashes with
  | .error e => some (.error e)
  | .ok active_addresses_len =>
    if active_addresses_len ≤ table.addresses.length then
      let active_addresses := table.addresses.take active_addresses_len
      some (match indexes.mapM (fun idx => active_addresses.get? idx) with
            | some addresses => .ok addresses
            | none => .error .InvalidLookupIndex)
    else
      none

/-- Error type `solana_instruction_error::InstructionError` (the variant used
by `store_current_index_checked`). -/
inductive InstructionError where
  | AccountDataTooSmall
deriving DecidableEq, Repr

/-- Error type `solana_program_error::ProgramError` (the variants used by the
instructions-sysvar accessors). -/
inductive ProgramError where
  | UnsupportedSysvar
  | InvalidArgument
  | InvalidInstructionData
deriving DecidableEq, Repr

/-- The instructions sysvar id, `Sysvar1nstructions1111111111111111111111111`
in base58 (`solana_sdk_ids::sysvar::instructions`). -/
def instructions_sysvar_id : Pubkey :=
  ⟨[6, 167, 213, 23, 24, 123, 209, 102, 53, 218, 212, 4, 85, 253, 194, 192,
    193, 36, 198, 143, 33, 86, 117, 165, 219, 186, 203, 95, 8, 0, 0, 0]⟩

/-- Address equality check of `solana_sdk_ids::sysvar::instructions::check_id`. -/
def instructions_sysvar_check_id (p : Pubkey) : Bool := p == instructions_sysvar_id

/-- An account-meta of an instruction as carried through the instructions
sysvar (`solana_instruction::AccountMeta` / the account part of
`BorrowedInstruction`). -/
structure AccountMeta where
  pubkey : Pubkey
  is_signer : Bool
  is_writable : Bool
deriving DecidableEq, Repr

/-- A call descriptor (`solana_instruction::Instruction` /
`BorrowedInstruction`): program id, ordered account metas, payload bytes. -/
structure Instruction where
  program_id : Pubkey
  accounts : List AccountMeta
  data : List Nat
deriving DecidableEq, Repr

/-- Little-endian bytes of `(v as u16).to_le_bytes()`: the `as u16` cast
truncates to 16 bits, hence the `% 256` on the high byte. -/
def u16_le_bytes (v : Nat) : List Nat := [v % 256, v / 256 % 256]

/-- Flags byte of an account meta
(src/program/src/instructions_sysvar_inner.rs lines 76-81 and 122-129):
bit 0 is `is_signer`, bit 1 is `is_writable`. -/
def account_meta_byte (a : AccountMeta) : Nat :=
  (if a.is_signer then 1 else 0) + (if a.is_writable then 2 else 0)

/-- Byte serialization of one account meta: flags byte then 32-byte address
(src/program/src/instructions_sysvar_inner.rs lines 99-101 and 121-131). -/
def serialize_account_meta (a : AccountMeta) : List Nat :=
  account_meta_byte a :: a.pubkey.bytes

/-- Byte block of one instruction
(src/program/src/instructions_sysvar_inner.rs lines 92-97 and 120-135):
`[u16 num_accounts][accounts][program_id][u16 data_len][data]`. -/
def instruction_block (ins : Instruction) : List Nat :=
  u16_le_bytes ins.accounts.length
    ++ ins.accounts.flatMap serialize_account_meta
    ++ ins.program_id.bytes
    ++ u16_le_bytes ins.data.length
    ++ ins.data

/-- Byte position at which instruction `i`'s block starts: the header
(`u16 count` plus the `count × u16` offset table) followed by the blocks of
the preceding instructions. -/
def block_offset (instrs : List Instruction) (i : Nat) : Nat :=
  2 + 2 * instrs.length + (((instrs.take i).map (fun ins => (instruction_block ins).length)).sum)

/-- `serialize_instructions` (src/program/src/instructions_sysvar_inner.rs
lines 108-138), in functional form: the imperative code reserves the offset
table as zeros and backfills entry `i` with `data.len() as u16` just before
appending block `i`, which is exactly `block_offset instrs i` truncated to
`u16`; the final buffer is the count, the backfilled offset table, and the
blocks in order. -/
def serialize_instructions (instrs : List Instruction) : List Nat :=
  u16_le_bytes instrs.length
    ++ (List.range instrs.length).flatMap (fun i => u16_le_bytes (block_offset instrs i))
    ++ instrs.flatMap instruction_block

/-- `solana_serialize_utils::read_u16` as used by `deserialize_instruction`:
bounds-checked little-endian `u16` read at `current`, advancing the cursor. -/
def read_u16 (current : Nat) (data : List Nat) : Except SanitizeError (Nat × Nat) :=
  if current + 2 ≤ data.length then
    .ok (data.getD current 0 + 256 * data.getD (current + 1) 0, current + 2)
  else
    .error .IndexOutOfBounds

/-- `solana_serialize_utils::read_u8`: bounds-checked byte read at `current`,
advancing the cursor. -/
def read_u8 (current : Nat) (data : List Nat) : Except SanitizeError (Nat × Nat) :=
  if current + 1 ≤ data.length then
    .ok (data.getD current 0, current + 1)
  else
    .error .IndexOutOfBounds

/-- `solana_serialize_utils::read_pubkey`: bounds-checked 32-byte read at
`current`, advancing the cursor. -/
def read_pubkey (current : Nat) (data : List Nat) : Except SanitizeError (Pubkey × Nat) :=
  if current + 32 ≤ data.length then
    .ok (⟨(data.drop current).take 32⟩, current + 32)
  else
    .error .IndexOutOfBounds

/-- `solana_serialize_utils::read_slice`: bounds-checked `len`-byte read at
`current`, advancing the cursor. -/
def read_slice (current : Nat) (data : List Nat) (len : Nat) :
    Except SanitizeError (List Nat × Nat) :=
  if current + len ≤ data.length then
    .ok ((data.drop current).take len, current + len)
  else
    .error .IndexOutOfBounds

/-- Account-meta loop of `deserialize_instruction`
(src/program/src/instructions_sysvar_inner.rs lines 201-218): reads
`num_accounts` account metas, decoding bit 0 of the flags byte as `is_signer`
and bit 1 as `is_writable`. -/
def read_account_metas (data : List Nat) :
    Nat → Nat → Except SanitizeError (List AccountMeta × Nat)
  | 0, current => .ok ([], current)
  | n + 1, current =>
    match read_u8 current data with
    | .error e => .error e
    | .ok (meta_byte, current) =>
      let is_signer := meta_byte % 2 = 1
      let is_writable := meta_byte / 2 % 2 = 1
      match read_pubkey current data with
      | .error e => .error e
      | .ok (pubkey, current) =>
        match read_account_metas data n current with
        | .error e => .error e
        | .ok (accounts, current) =>
          .ok ({ pubkey := pubkey, is_signer := is_signer, is_writable := is_writable }
                :: accounts, current)

/-- Body of `deserialize_instruction` from the resolved block start
(src/program/src/instructions_sysvar_inner.rs lines 199-227): parses
`[u16 num_accounts][accounts][program_id][u16 data_len][data]` at `start`. -/
def parse_instruction_at (start : Nat) (data : List Nat) :
    Except SanitizeError Instruction :=
  match read_u16 start data with
  | .error e => .error e
  | .ok (num_accounts, current) =>
    match read_account_metas data num_accounts current with
    | .error e => .error e
    | .ok (accounts, current) =>
      match read_pubkey current data with
      | .error e => .error e
      | .ok (program_id, current) =>
        match read_u16 current data with
        | .error e => .error e
        | .ok (data_len, current) =>
          match read_slice current data data_len with
          | .error e => .error e
          | .ok (d, _) =>
            .ok { program_id := program_id, accounts := accounts, data := d }

/-- `deserialize_instruction` (src/program/src/instructions_sysvar_inner.rs
lines 185-227): reads the `u16` count, bounds-checks `index`, reads the
offset-table entry at `2 + 2 * index`, then parses the block at that offset. -/
def deserialize_instruction (index : Nat) (data : List Nat) :
    Except SanitizeError Instruction :=
  match read_u16 0 data with
  | .error e => .error e
  | .ok (num_instructions, current) =>
    if index ≥ num_instructions then .error .IndexOutOfBounds
    else
      match read_u16 (current + index * 2) data with
      | .error e => .error e
      | .ok (start, _) => parse_instruction_at start data

/-- `load_current_index` (src/program/src/instructions_sysvar_inner.rs lines
147-152): reads the little-endian `u16` in the last two bytes of the buffer.
The source slices `data[len - 2..len]` with wrapping `usize` arithmetic, which
panics for buffers of length 0 or 1; the panic is modelled as `none`. -/
def load_current_index (data : List Nat) : Option Nat :=
  if 2 ≤ data.length then
    some (data.getD (data.length - 2) 0 + 256 * data.getD (data.length - 1) 0)
  else
    none

/-- An account as seen by the sysvar accessors: its address and its data
bytes (the `AccountInfo` fields read by `load_current_index_checked`). -/
structure AccountInfo where
  key : Pubkey
  data : List Nat

/-- `load_current_index_checked` (src/program/src/instructions_sysvar_inner.rs
lines 160-170): checks the account's address against the instructions-sysvar
id, then reads the cursor; the inner panic (`none`) propagates. -/
def load_current_index_checked (account : AccountInfo) :
    Option (Except ProgramError Nat) :=
  if !(instructions_sysvar_check_id account.key) then
    some (.error .UnsupportedSysvar)
  else
    match load_current_index account.data with
    | some index => some (.ok index)
    | none => none

/-- `store_current_index_checked` (src/program/src/instructions_sysvar_inner.rs
lines 173-183): rejects buffers shorter than 2 bytes, otherwise overwrites the
last two bytes with the little-endian `u16` index; the mutated buffer is
returned. -/
def store_current_index_checked (data : List Nat) (instruction_index : Nat) :
    Except InstructionError (List Nat) :=
  if data.length < 2 then
    .error .AccountDataTooSmall
  else
    .ok (data.take (data.length - 2) ++ u16_le_bytes instruction_index)

theorem sanitize_instructions_ok_iff (n : Nat) (l : List CompiledInstruction) :
    sanitize_instructions n l = .ok () ↔
      ∀ ci ∈ l, ci.program_id_index ≠ 0 ∧ ci.program_id_index < n ∧
        ∀ ai ∈ ci.accounts, ai < n := by
  induction l with
  | nil => simp [sanitize_instructions]
  | cons ci rest ih =>
    simp only [sanitize_instructions, List.mem_cons]
    by_cases h1 : ci.program_id_index ≥ n
    · rw [if_pos h1]
      constructor
      · intro h; exact absurd h (by simp)
      · intro h; exact absurd ((h ci (Or.inl rfl)).2.1) (by omega)
    · rw [if_neg h1]
      by_cases h2 : ci.program_id_index = 0
      · rw [if_pos h2]
        constructor
        · intro h; exact absurd h (by simp)
        · intro h; exact absurd h2 ((h ci (Or.inl rfl)).1)
      · rw [if_neg h2]
        by_cases h3 : ci.accounts.any (fun ai => ai ≥ n)
        · rw [if_pos h3]
          rcases List.any_eq_true.mp h3 with ⟨ai, hai, hge⟩
          constructor
          · intro h; exact absurd h (by simp)
          · intro h
            exact absurd ((h ci (Or.inl rfl)).2.2 ai hai) (by simpa using hge)
        · rw [if_neg h3]
          rw [ih]
          constructor
          · intro h c hc
            rcases hc with hc | hc
            · subst hc
              refine ⟨h2, by omega, ?_⟩
              intro ai hai
              by_contra hlt
              exact h3 (List.any_eq_true.mpr ⟨ai, hai, by simpa using Nat.le_of_not_lt hlt⟩)
            · exact h c hc
          · intro h c hc
            exact h c (Or.inr hc)

theorem sanitize_instructions_ok_or_oob (n : Nat) (l : List CompiledInstruction) :
    sanitize_instructions n l = .ok () ∨
      sanitize_instructions n l = .error .IndexOutOfBounds := by
  induction l with
  | nil => simp [sanitize_instructions]
  | cons ci rest ih =>
    simp only [sanitize_instructions]
    by_cases h1 : ci.program_id_index ≥ n
    · rw [if_pos h1]; right; rfl
    · rw [if_neg h1]
      by_cases h2 : ci.program_id_index = 0
      · rw [if_pos h2]; right; rfl
      · rw [if_neg h2]
        by_cases h3 : ci.accounts.any (fun ai => ai ≥ n)
        · rw [if_pos h3]; right; rfl
        · rw [if_neg h3]; exact ih

/-- C2: legacy `Message::sanitize` accepts a message exactly when the header
counts fit the account-key table (`num_required_signatures +
num_readonly_unsigned_accounts ≤ len` and `num_readonly_signed_accounts <
num_required_signatures`, so the boundary case of equality is rejected and a
writable signing fee-payer always exists), every compiled instruction has a
nonzero, in-range `program_id_index` and in-range account indices; every
violation is reported as the index-out-of-bounds error class (the function is
pure, so the message is never mutated). -/
theorem legacy_message_sanitize_spec (m : Message) :
    (m.sanitize = .ok () ↔
      (m.header.num_required_signatures + m.header.num_readonly_unsigned_accounts
          ≤ m.account_keys.length
        ∧ m.header.num_readonly_signed_accounts < m.header.num_required_signatures
        ∧ ∀ ci ∈ m.instructions,
            ci.program_id_index ≠ 0 ∧ ci.program_id_index < m.account_keys.length ∧
              ∀ ai ∈ ci.accounts, ai < m.account_keys.length))
    ∧ (m.sanitize = .ok () ∨ m.sanitize = .error .IndexOutOfBounds) := by
  unfold Message.sanitize
  by_cases h1 : m.header.num_required_signatures + m.header.num_readonly_unsigned_accounts
      > m.account_keys.length
  · rw [if_pos h1]
    exact ⟨⟨fun h => absurd h (by simp), fun h => absurd h.1 (by omega)⟩, Or.inr rfl⟩
  · rw [if_neg h1]
    by_cases h2 : m.header.num_readonly_signed_accounts ≥ m.header.num_required_signatures
    · rw [if_pos h2]
      exact ⟨⟨fun h => absurd h (by simp), fun h => absurd h.2.1 (by omega)⟩, Or.inr rfl⟩
    · rw [if_neg h2]
      refine ⟨?_, sanitize_instructions_ok_or_oob _ _⟩
      rw [sanitize_instructions_ok_iff]
      constructor
      · intro h; exact ⟨by omega, by omega, h⟩
      · intro h; exact h.2.2

/-- C9: for a legacy message whose header satisfies the validity invariants,
`is_signer` and `is_writable_index` partition the index range `[0, len)` into
exactly four disjoint contiguous regions in the fixed order writable-signers,
readonly-signers, writable-non-signers, readonly-non-signers, with boundaries
`num_required_signatures - num_readonly_signed_accounts`,
`num_required_signatures` and `len - num_readonly_unsigned_accounts` derived
solely from the header counts and the table length. -/
theorem message_regions_partition (m : Message)
    (hsig : m.header.num_readonly_signed_accounts < m.header.num_required_signatures)
    (hlen : m.header.num_required_signatures + m.header.num_readonly_unsigned_accounts
      ≤ m.account_keys.length)
    (i : Nat) (hi : i < m.account_keys.length) :
    ((m.is_signer i = true ∧ m.is_writable_index i = true) ↔
        i < m.header.num_required_signatures - m.header.num_readonly_signed_accounts)
    ∧ ((m.is_signer i = true ∧ m.is_writable_index i = false) ↔
        (m.header.num_required_signatures - m.header.num_readonly_signed_accounts ≤ i
          ∧ i < m.header.num_required_signatures))
    ∧ ((m.is_signer i = false ∧ m.is_writable_index i = true) ↔
        (m.header.num_required_signatures ≤ i
          ∧ i < m.account_keys.length - m.header.num_readonly_unsigned_accounts))
    ∧ ((m.is_signer i = false ∧ m.is_writable_index i = false) ↔
        (m.account_keys.length - m.header.num_readonly_unsigned_accounts ≤ i
          ∧ i < m.account_keys.length)) := by
  simp only [Message.is_signer, Message.is_writable_index, Bool.or_eq_true,
    Bool.and_eq_true, decide_eq_true_eq, Bool.or_eq_false_iff, Bool.and_eq_false_iff,
    decide_eq_false_iff_not, not_lt, ge_iff_le]
  refine ⟨?_, ?_, ?_, ?_⟩ <;> omega

/-- Witness for C9 at a concrete message: header `(2, 1, 1)` over four keys
yields regions `[0,1)`, `[1,2)`, `[2,3)`, `[3,4)`; checked at index 2
(a writable non-signer). -/
theorem message_regions_partition_witness :
    (1 : Nat) < 2 ∧ (2 : Nat) + 1 ≤ 4 ∧ (2 : Nat) < 4 ∧
      (((Message.mk ⟨2, 1, 1⟩
          [⟨[0]⟩, ⟨[1]⟩, ⟨[2]⟩, ⟨[3]⟩] ⟨[]⟩ []).is_signer 2 = false
        ∧ (Message.mk ⟨2, 1, 1⟩
          [⟨[0]⟩, ⟨[1]⟩, ⟨[2]⟩, ⟨[3]⟩] ⟨[]⟩ []).is_writable_index 2 = true) ↔
        ((2 : Nat) ≤ 2 ∧ (2 : Nat) < 4 - 1)) :=
  ⟨by decide, by decide, by decide,
    (message_regions_partition
      (Message.mk ⟨2, 1, 1⟩ [⟨[0]⟩, ⟨[1]⟩, ⟨[2]⟩, ⟨[3]⟩] ⟨[]⟩ [])
      (by decide) (by decide) 2 (by decide)).2.2.1⟩

/-- C3: `LookupTableMeta::status` returns `Activated` exactly when the
deactivation slot is `u64::MAX`; otherwise it returns
`Deactivating { remaining_blocks: 513 }` (`MAX_ENTRIES + 1` for
`MAX_ENTRIES = 512`) while the current slot equals the deactivation slot `d`,
`Deactivating { remaining_blocks: 512 - p }` when `d` sits at position `p` of
the descending slot-hash history, and `Deactivated` when `d` is absent from
the history. -/
theorem lookup_table_status_spec (meta : LookupTableMeta) (current_slot : Nat)
    (slot_hashes : SlotHashes) :
    (meta.status current_slot slot_hashes = .Activated ↔
        meta.deactivation_slot = U64_MAX)
    ∧ (meta.deactivation_slot ≠ U64_MAX → meta.deactivation_slot = current_slot →
        meta.status current_slot slot_hashes = .Deactivating 513)
    ∧ (∀ p, meta.deactivation_slot ≠ U64_MAX → meta.deactivation_slot ≠ current_slot →
        slot_hashes.position meta.deactivation_slot = some p →
        meta.status current_slot slot_hashes = .Deactivating (512 - p))
    ∧ (meta.deactivation_slot ≠ U64_MAX → meta.deactivation_slot ≠ current_slot →
        slot_hashes.position meta.deactivation_slot = none →
        meta.status current_slot slot_hashes = .Deactivated) := by
  unfold LookupTableMeta.status
  refine ⟨?_, ?_, ?_, ?_⟩
  · by_cases h1 : meta.deactivation_slot = U64_MAX
    · simp [h1]
    · rw [if_neg h1]
      by_cases h2 : meta.deactivation_slot = current_slot
      · rw [if_pos h2]; simp [h1]
      · rw [if_neg h2]
        cases hp : slot_hashes.position meta.deactivation_slot <;> simp [hp, h1]
  · intro h1 h2
    rw [if_neg h1, if_pos h2]
    norm_num [MAX_ENTRIES]
  · intro p h1 h2 hp
    rw [if_neg h1, if_neg h2, hp]
    norm_num [MAX_ENTRIES]
  · intro h1 h2 hp
    rw [if_neg h1, if_neg h2, hp]

/-- Witness for C3 at a concrete metadata: deactivation slot 5, current slot 7,
history `[(7, _), (6, _), (5, _)]` puts `d = 5` at position 2, giving
`Deactivating { remaining_blocks: 510 }`. -/
theorem lookup_table_status_witness :
    (5 : Nat) ≠ U64_MAX ∧ (5 : Nat) ≠ 7 ∧
      SlotHashes.position [(7, Hash.mk []), (6, Hash.mk []), (5, Hash.mk [])] 5 = some 2 ∧
      (LookupTableMeta.mk 5 0 0 none).status 7
          [(7, Hash.mk []), (6, Hash.mk []), (5, Hash.mk [])] = .Deactivating 510 :=
  ⟨by decide, by decide, by decide,
    (lookup_table_status_spec (LookupTableMeta.mk 5 0 0 none) 7
        [(7, Hash.mk []), (6, Hash.mk []), (5, Hash.mk [])]).2.2.1 2
      (by decide) (by decide) (by decide)⟩

/-- C4: `AddressLookupTable::get_active_addresses_len` fails with the
lookup-table-account-not-found error exactly when the table's status is
`Deactivated` (the same error as for a nonexistent table); otherwise it
returns the full address-list length when `current_slot > last_extended_slot`
and `last_extended_slot_start_index` when `current_slot ≤ last_extended_slot`. -/
theorem get_active_addresses_len_spec (table : AddressLookupTable)
    (current_slot : Nat) (slot_hashes : SlotHashes) :
    (table.get_active_addresses_len current_slot slot_hashes
        = .error .LookupTableAccountNotFound ↔
      table.meta.status current_slot slot_hashes = .Deactivated)
    ∧ (table.meta.status current_slot slot_hashes ≠ .Deactivated →
        table.get_active_addresses_len current_slot slot_hashes
          = .ok (if current_slot > table.meta.last_extended_slot then
                    table.addresses.length
                 else table.meta.last_extended_slot_start_index)) := by
  unfold AddressLookupTable.get_active_addresses_len LookupTableMeta.is_active
  cases h : table.meta.status current_slot slot_hashes <;> simp [h]

/-- Witness for C4 at the spec's concrete example: an activated table with
`last_extended_slot = 100`, `last_extended_slot_start_index = 3` and 10
addresses has active length 3 at slot 100 and 10 at slot 101. -/
theorem get_active_addresses_len_witness :
    (AddressLookupTable.mk (LookupTableMeta.mk U64_MAX 100 3 none)
        (List.replicate 10 ⟨[1]⟩)).meta.status 100 [] ≠ .Deactivated ∧
      (AddressLookupTable.mk (LookupTableMeta.mk U64_MAX 100 3 none)
          (List.replicate 10 ⟨[1]⟩)).get_active_addresses_len 100 [] = .ok 3 ∧
      (AddressLookupTable.mk (LookupTableMeta.mk U64_MAX 100 3 none)
          (List.replicate 10 ⟨[1]⟩)).get_active_addresses_len 101 [] = .ok 10 := by
  refine ⟨by decide, ?_, ?_⟩
  · have h := (get_active_addresses_len_spec
      (AddressLookupTable.mk (LookupTableMeta.mk U64_MAX 100 3 none)
        (List.replicate 10 ⟨[1]⟩)) 100 []).2 (by decide)
    simpa using h
  · have h := (get_active_addresses_len_spec
      (AddressLookupTable.mk (LookupTableMeta.mk U64_MAX 100 3 none)
        (List.replicate 10 ⟨[1]⟩)) 101 []).2 (by decide)
    simpa using h

theorem mapM_take_get_all_lt (as : List Pubkey) (L : Nat) (hfit : L ≤ as.length)
    (indexes : List Nat) (h : ∀ idx ∈ indexes, idx < L) :
    indexes.mapM (fun idx => (as.take L).get? idx)
      = some (indexes.map (fun idx => as.getD idx default)) := by
  induction indexes with
  | nil => rfl
  | cons i rest ih =>
    have hi : i < L := h i (List.mem_cons_self i rest)
    have hlen : i < as.length := lt_of_lt_of_le hi hfit
    have hget : (as.take L).get? i = some (as.getD i default) := by
      rw [List.get?_eq_getElem?, List.getElem?_take, if_pos hi, List.getElem?_eq_getElem hlen]
      rw [List.getD_eq_getElem?_getD, List.getElem?_eq_getElem hlen]
      rfl
    simp only [List.mapM_cons, hget, ih (fun idx hidx => h idx (List.mem_cons_of_mem i hidx)),
      List.map_cons]
    rfl

theorem mapM_take_get_oob (as : List Pubkey) (L : Nat) ( _hfit : L ≤ as.length)
    (indexes : List Nat) (h : ∃ idx ∈ indexes, L ≤ idx) :
    indexes.mapM (fun idx => (as.take L).get? idx) = none := by
  induction indexes with
  | nil => rcases h with ⟨idx, hmem, _⟩; cases hmem
  | cons i rest ih =>
    rcases h with ⟨idx, hmem, hge⟩
    rcases List.mem_cons.mp hmem with hidx | hidx
    · subst hidx
      have hnone : (as.take L).get? idx = none := by
        rw [List.get?_eq_getElem?, List.getElem?_take, if_neg (by omega)]
      simp only [List.mapM_cons, hnone]
      rfl
    · cases hget : (as.take L).get? i with
      | none =>
        simp only [List.mapM_cons, hget]
        rfl
      | some a =>
        simp only [List.mapM_cons, hget, ih ⟨idx, hidx, hge⟩]
        rfl

/-- C5 counterexample: the claim fails as stated.  The activated table with
`last_extended_slot = 100`, `last_extended_slot_start_index = 5` and an empty
address list has active length 5 at slot 100 (`get_active_addresses_len`
returns `Ok(5)`), and the empty index sequence trivially has every index
`< 5`, so the claim demands the lookup succeed with the empty address
sequence; instead the source panics slicing `&addresses[0..5]` of a length-0
list (modelled as `none`). -/
theorem lookup_fail_atomic_counterexample :
    (AddressLookupTable.mk (LookupTableMeta.mk U64_MAX 100 5 none)
        []).get_active_addresses_len 100 [] = .ok 5
    ∧ (AddressLookupTable.mk (LookupTableMeta.mk U64_MAX 100 5 none)
        []).lookup 100 [] [] = none
    ∧ (AddressLookupTable.mk (LookupTableMeta.mk U64_MAX 100 5 none)
        []).lookup 100 [] [] ≠ some (.ok []) := by
  refine ⟨by decide, by decide, by decide⟩

/-- C5 (amended): for every table that is active at `current_slot` with active
length `L` — provided `L` does not exceed the stored address count, without
which the source's slicing of the active address range panics —
`AddressLookupTable::lookup` returns exactly the addresses at the requested
positions, in order, when every index is `< L`, and fails as a whole with the
invalid-lookup-index error when any single index is `≥ L`; a partial
resolution is never returned. -/
theorem lookup_fail_atomic (table : AddressLookupTable) (current_slot : Nat)
    (indexes : List Nat) (slot_hashes : SlotHashes) (L : Nat)
    (hL : table.get_active_addresses_len current_slot slot_hashes = .ok L)
    (hfit : L ≤ table.addresses.length) :
    ((∀ idx ∈ indexes, idx < L) →
      table.lookup current_slot indexes slot_hashes
        = some (.ok (indexes.map (fun idx => table.addresses.getD idx default))))
    ∧ ((∃ idx ∈ indexes, L ≤ idx) →
      table.lookup current_slot indexes slot_hashes
        = some (.error .InvalidLookupIndex)) := by
  constructor
  · intro h
    unfold AddressLookupTable.lookup
    rw [hL]
    simp only [if_pos hfit, mapM_take_get_all_lt table.addresses L hfit indexes h]
  · intro h
    unfold AddressLookupTable.lookup
    rw [hL]
    simp only [if_pos hfit, mapM_take_get_oob table.addresses L hfit indexes h]

/-- Witness for C5 (amended): the spec's example on a well-formed table —
`lookup [2, 9]` against a fully-active 10-address table succeeds with the
addresses at positions 2 and 9, and `lookup [2, 99]` fails entirely. -/
theorem lookup_fail_atomic_witness :
    (AddressLookupTable.mk (LookupTableMeta.mk U64_MAX 100 0 none)
        ((List.range 10).map (fun i => ⟨[i]⟩))).get_active_addresses_len 101 [] = .ok 10
    ∧ (10 : Nat) ≤ 10
    ∧ (AddressLookupTable.mk (LookupTableMeta.mk U64_MAX 100 0 none)
        ((List.range 10).map (fun i => ⟨[i]⟩))).lookup 101 [2, 9] []
        = some (.ok [⟨[2]⟩, ⟨[9]⟩])
    ∧ (AddressLookupTable.mk (LookupTableMeta.mk U64_MAX 100 0 none)
        ((List.range 10).map (fun i => ⟨[i]⟩))).lookup 101 [2, 99] []
        = some (.error .InvalidLookupIndex) := by
  refine ⟨by decide, by decide, ?_, ?_⟩
  · have h := ((lookup_fail_atomic
      (AddressLookupTable.mk (LookupTableMeta.mk U64_MAX 100 0 none)
        ((List.range 10).map (fun i => ⟨[i]⟩))) 101 [2, 9] [] 10
      (by decide) (by decide)).1 (by decide))
    simpa using h
  · exact ((lookup_fail_atomic
      (AddressLookupTable.mk (LookupTableMeta.mk U64_MAX 100 0 none)
        ((List.range 10).map (fun i => ⟨[i]⟩))) 101 [2, 99] [] 10
      (by decide) (by decide)).2 ⟨99, by decide, by decide⟩)

/-- C7: `VersionedTransaction::uses_durable_nonce` holds iff the message has a
compiled instruction at the fixed index 0 whose program-id index resolves to a
static account key equal to the system program id and whose data starts with
the 4-byte advance-nonce-account discriminant `[4, 0, 0, 0]` (longer data
still counts; an identical instruction at any other index, or one invoking
any other program, does not). -/
theorem uses_durable_nonce_spec {σ : Type} (tx : VersionedTransaction σ) :
    tx.uses_durable_nonce = true ↔
      ∃ instruction, tx.message.instructions.get? 0 = some instruction
        ∧ tx.message.static_account_keys.get? instruction.program_id_index
            = some system_program_id
        ∧ 4 ≤ instruction.data.length
        ∧ instruction.data.take 4 = [4, 0, 0, 0] := by
  unfold VersionedTransaction.uses_durable_nonce NONCED_TX_MARKER_IX_INDEX
  cases h0 : tx.message.instructions.get? 0 with
  | none => simp [h0]
  | some ins =>
    simp only [Option.some.injEq]
    cases hp : tx.message.static_account_keys.get? ins.program_id_index with
    | none =>
      rw [List.get?_eq_getElem?] at hp
      simp [hp]
    | some pid =>
      rw [List.get?_eq_getElem?] at hp
      simp [hp, system_program_check_id, is_advance_nonce_instruction_data,
        ADVANCE_NONCE_DATA, beq_iff_eq, and_assoc]

/-- C8: `VersionedTransaction::sanitize_signatures_inner(required, static_len,
provided)` returns the index-out-of-bounds error when `provided < required`,
the invalid-value error when `provided > required`, the index-out-of-bounds
error when `provided == required` but `provided > static_len`, and succeeds
otherwise; in particular `(1,1,0)`, `(1,1,2)`, `(2,1,2)` and `(1,1,1)` give
index-out-of-bounds, invalid-value, index-out-of-bounds and success. -/
theorem sanitize_signatures_inner_spec (required static_len provided : Nat) :
    (provided < required →
      VersionedTransaction.sanitize_signatures_inner required static_len provided
        = .error .IndexOutOfBounds)
    ∧ (required < provided →
      VersionedTransaction.sanitize_signatures_inner required static_len provided
        = .error .InvalidValue)
    ∧ (provided = required → static_len < provided →
      VersionedTransaction.sanitize_signatures_inner required static_len provided
        = .error .IndexOutOfBounds)
    ∧ (provided = required → provided ≤ static_len →
      VersionedTransaction.sanitize_signatures_inner required static_len provided
        = .ok ())
    ∧ VersionedTransaction.sanitize_signatures_inner 1 1 0 = .error .IndexOutOfBounds
    ∧ VersionedTransaction.sanitize_signatures_inner 1 1 2 = .error .InvalidValue
    ∧ VersionedTransaction.sanitize_signatures_inner 2 1 2 = .error .IndexOutOfBounds
    ∧ VersionedTransaction.sanitize_signatures_inner 1 1 1 = .ok () := by
  refine ⟨?_, ?_, ?_, ?_, by decide, by decide, by decide, by decide⟩
  · intro h
    unfold VersionedTransaction.sanitize_signatures_inner
    have : compare required provided = .gt := by
      rw [Nat.compare_eq_gt]; exact h
    rw [this]
  · intro h
    unfold VersionedTransaction.sanitize_signatures_inner
    have : compare required provided = .lt := by
      rw [Nat.compare_eq_lt]; exact h
    rw [this]
  · intro heq h
    unfold VersionedTransaction.sanitize_signatures_inner
    have : compare required provided = .eq := by
      rw [Nat.compare_eq_eq]; omega
    rw [this, if_pos (by omega)]
  · intro heq h
    unfold VersionedTransaction.sanitize_signatures_inner
    have : compare required provided = .eq := by
      rw [Nat.compare_eq_eq]; omega
    rw [this, if_neg (by omega)]

/-- Witness for C8: at `(required, static_len, provided) = (3, 3, 1)` the
hypothesis `provided < required` holds and the signature-count check reports
index-out-of-bounds. -/
theorem sanitize_signatures_inner_witness :
    (1 : Nat) < 3 ∧
      VersionedTransaction.sanitize_signatures_inner 3 3 1 = .error .IndexOutOfBounds :=
  ⟨by decide, (sanitize_signatures_inner_spec 3 3 1).1 (by decide)⟩

/-- C10: reading the current-index cursor is total only for buffers of at
least 2 bytes.  For every buffer ending in bytes `b0, b1`,
`load_current_index` returns the little-endian `u16` `b0 + 256 * b1` without
panicking (and `load_current_index_checked` does the same on an account
carrying the instructions-sysvar id); for buffers of length 0 or 1 the read
path panics (`none`, from the wrapping `len - 2` slice index), whereas the
write path `store_current_index_checked` returns the
account-data-too-small error for every buffer shorter than 2 bytes. -/
theorem current_index_cursor_spec :
    (∀ (data : List Nat) (b0 b1 : Nat),
      load_current_index (data ++ [b0, b1]) = some (b0 + 256 * b1))
    ∧ load_current_index [] = none
    ∧ (∀ b : Nat, load_current_index [b] = none)
    ∧ (∀ (data : List Nat) (b0 b1 : Nat),
        load_current_index_checked ⟨instructions_sysvar_id, data ++ [b0, b1]⟩
          = some (.ok (b0 + 256 * b1)))
    ∧ load_current_index_checked ⟨instructions_sysvar_id, []⟩ = none
    ∧ (∀ b : Nat, load_current_index_checked ⟨instructions_sysvar_id, [b]⟩ = none)
    ∧ (∀ (data : List Nat) (instruction_index : Nat), data.length < 2 →
        store_current_index_checked data instruction_index
          = .error .AccountDataTooSmall) := by
  have hload : ∀ (data : List Nat) (b0 b1 : Nat),
      load_current_index (data ++ [b0, b1]) = some (b0 + 256 * b1) := by
    intro data b0 b1
    unfold load_current_index
    rw [if_pos (by simp)]
    congr 1
    have hlen : (data ++ [b0, b1]).length = data.length + 2 := by simp
    have h0 : (data ++ [b0, b1]).getD (data.length + 2 - 2) 0 = b0 := by
      rw [List.getD_append_right _ _ _ _ (by omega)]
      simp
    have h1 : (data ++ [b0, b1]).getD (data.length + 2 - 1) 0 = b1 := by
      rw [List.getD_append_right _ _ _ _ (by omega)]
      have hsub : data.length + 2 - 1 - data.length = 1 := by omega
      rw [hsub]
      rfl
    rw [hlen, h0, h1]
  refine ⟨hload, rfl, fun b => rfl, ?_, rfl, fun b => rfl, ?_⟩
  · intro data b0 b1
    unfold load_current_index_checked
    rw [hload data b0 b1]
    rfl
  · intro data instruction_index h
    unfold store_current_index_checked
    rw [if_pos h]

/-- Witness for C10: the length hypothesis of the store conjunct discharged at
the concrete one-byte buffer `[9]`, via the theorem itself. -/
theorem current_index_cursor_witness :
    ([9] : List Nat).length < 2 ∧
      store_current_index_checked [9] 7 = .error .AccountDataTooSmall :=
  ⟨by decide, current_index_cursor_spec.2.2.2.2.2.2 [9] 7 (by decide)⟩

theorem findIdx?_cons_map {α : Type _} (p : α → Bool) (a : α) (l : List α) :
    List.findIdx? p (a :: l) = if p a then some 0 else (List.findIdx? p l).map (· + 1) := by
  simp only [List.findIdx?_cons]
  split <;> simp [List.findIdx?_succ]

theorem findIdx?_some_spec {α : Type _} (p : α → Bool) (l : List α) :
    ∀ i, List.findIdx? p l = some i →
      i < l.length ∧ ∃ a, l.get? i = some a ∧ p a = true := by
  induction l with
  | nil => intro i h; cases h
  | cons a l ih =>
    intro i h
    rw [findIdx?_cons_map] at h
    by_cases hp : p a
    · rw [if_pos hp] at h
      cases h
      exact ⟨Nat.succ_pos _, a, rfl, hp⟩
    · rw [if_neg hp] at h
      rcases Option.map_eq_some'.mp h with ⟨j, hj, hij⟩
      rcases ih j hj with ⟨hjl, b, hb, hpb⟩
      subst hij
      exact ⟨by simpa using hjl, b, by simpa using hb, hpb⟩

theorem option_mapM_eq_none {α β : Type _} (f : α → Option β) (l : List α) (a : α)
    (ha : a ∈ l) (hf : f a = none) : l.mapM f = none := by
  induction l with
  | nil => cases ha
  | cons x l ih =>
    rcases List.mem_cons.mp ha with hx | hx
    · subst hx
      simp only [List.mapM_cons, hf]
      rfl
    · cases hfx : f x with
      | none => simp only [List.mapM_cons, hfx]; rfl
      | some b => simp only [List.mapM_cons, hfx, ih hx]; rfl

theorem option_mapM_eq_some {α β : Type _} (f : α → Option β) (l : List α) :
    ∀ bs : List β, l.mapM f = some bs →
      bs.length = l.length ∧ ∀ i a, l.get? i = some a → bs.get? i = f a := by
  induction l with
  | nil =>
    intro bs h
    cases h
    exact ⟨rfl, fun i a ha => by cases ha⟩
  | cons x l ih =>
    intro bs h
    rw [List.mapM_cons] at h
    cases hfx : f x with
    | none => rw [hfx] at h; cases h
    | some b =>
      rw [hfx] at h
      cases hrest : l.mapM f with
      | none =>
        rw [hrest] at h
        cases h
      | some bs2 =>
        rw [hrest] at h
        cases h
        rcases ih bs2 hrest with ⟨hlen, hget⟩
        refine ⟨by simpa using hlen, ?_⟩
        intro i a ha
        match i with
        | 0 =>
          cases ha
          simpa using hfx.symm
        | j + 1 =>
          simpa using hget j a (by simpa using ha)

theorem option_mapM_isSome {α β : Type _} (f : α → Option β) (l : List α)
    (h : ∀ a ∈ l, ∃ b, f a = some b) : ∃ bs, l.mapM f = some bs := by
  induction l with
  | nil => exact ⟨[], rfl⟩
  | cons x l ih =>
    rcases h x (List.mem_cons_self x l) with ⟨b, hb⟩
    rcases ih (fun a ha => h a (List.mem_cons_of_mem x ha)) with ⟨bs, hbs⟩
    exact ⟨b :: bs, by simp only [List.mapM_cons, hb, hbs]; rfl⟩

/-- C1: for a versioned message whose first `num_required_signatures` static
keys are the distinct addresses in `A`, `VersionedTransaction::try_new` fails
with too-many-signers when more identities than required signers are supplied
and with not-enough-signers when fewer are supplied; with exactly as many, it
fails with keypair/pubkey-mismatch when some required address has no matching
identity, and otherwise succeeds with a transaction carrying the original
message whose signature at index `i` is the signature produced over the
serialized message bytes by an identity whose address equals the `i`-th
required signer address — regardless of the order the identities were
supplied in. -/
theorem try_new_signing_spec {σ : Type} (serialize : VersionedMessage → List Nat)
    (message : VersionedMessage) (keypairs : List (Signer σ)) (A : List Pubkey)
    (hA : message.static_account_keys.take message.header.num_required_signatures = A)
    (hlen : A.length = message.header.num_required_signatures)
    ( _hnodup : A.Nodup) :
    (message.header.num_required_signatures < keypairs.length →
      VersionedTransaction.try_new serialize message keypairs = .error .TooManySigners)
    ∧ (keypairs.length < message.header.num_required_signatures →
      VersionedTransaction.try_new serialize message keypairs = .error .NotEnoughSigners)
    ∧ (keypairs.length = message.header.num_required_signatures →
      (∃ a ∈ A, ∀ kp ∈ keypairs, kp.pubkey ≠ a) →
      VersionedTransaction.try_new serialize message keypairs
        = .error .KeypairPubkeyMismatch)
    ∧ (keypairs.length = message.header.num_required_signatures →
      (∀ a ∈ A, ∃ kp ∈ keypairs, kp.pubkey = a) →
      ∃ tx, VersionedTransaction.try_new serialize message keypairs = .ok tx
        ∧ tx.message = message
        ∧ tx.signatures.length = message.header.num_required_signatures
        ∧ ∀ i a, A.get? i = some a →
            ∃ kp ∈ keypairs, kp.pubkey = a
              ∧ tx.signatures.get? i = some (kp.sign (serialize message))) := by
  have hstatic : message.header.num_required_signatures
      ≤ message.static_account_keys.length := by
    have hc := congrArg List.length hA
    simp only [List.length_take] at hc
    omega
  refine ⟨?_, ?_, ?_, ?_⟩
  · intro h
    simp only [VersionedTransaction.try_new]
    rw [if_neg (by omega), hA]
    simp only [List.length_map, hlen]
    rw [Nat.compare_eq_gt.mpr h]
  · intro h
    simp only [VersionedTransaction.try_new]
    rw [if_neg (by omega), hA]
    simp only [List.length_map, hlen]
    rw [Nat.compare_eq_lt.mpr h]
  · intro h hmiss
    simp only [VersionedTransaction.try_new]
    rw [if_neg (by omega), hA]
    simp only [List.length_map, hlen]
    rw [Nat.compare_eq_eq.mpr h]
    rcases hmiss with ⟨a, ha, hall⟩
    have hnone : A.mapM
        (fun signer_key => (keypairs.map (fun x => x.pubkey)).findIdx?
          (fun key => key == signer_key)) = none := by
      refine option_mapM_eq_none _ _ a ha ?_
      rw [List.findIdx?_eq_none_iff]
      intro x hx
      rcases List.mem_map.mp hx with ⟨kp, hkp, hpk⟩
      subst hpk
      simpa using hall kp hkp
    rw [hnone]
  · intro h hmatch
    simp only [VersionedTransaction.try_new]
    rw [if_neg (by omega), hA]
    simp only [List.length_map, hlen]
    rw [Nat.compare_eq_eq.mpr h]
    have hsome : ∀ a ∈ A, ∃ j,
        (keypairs.map (fun x => x.pubkey)).findIdx? (fun key => key == a) = some j := by
      intro a ha
      rcases hmatch a ha with ⟨kp, hkp, hpk⟩
      cases hfi : (keypairs.map (fun x => x.pubkey)).findIdx? (fun key => key == a) with
      | none =>
        exfalso
        rw [List.findIdx?_eq_none_iff] at hfi
        have hcontra := hfi kp.pubkey (List.mem_map_of_mem _ hkp)
        rw [hpk] at hcontra
        simp at hcontra
      | some j => exact ⟨j, rfl⟩
    rcases option_mapM_isSome _ _ hsome with ⟨idxs, hidxs⟩
    rw [hidxs]
    simp only []
    rcases option_mapM_eq_some _ _ idxs hidxs with ⟨hidxlen, hidxget⟩
    have hjlt : ∀ i j, idxs.get? i = some j → j < keypairs.length := by
      intro i j hij
      have hilt : i < idxs.length := by
        by_contra hge
        rw [List.get?_eq_getElem?, List.getElem?_eq_none (by omega)] at hij
        cases hij
      have hiA : i < A.length := by omega
      have ⟨a, ha⟩ : ∃ a, A.get? i = some a := by
        cases ha : A.get? i with
        | none =>
          rw [List.get?_eq_none] at ha
          omega
        | some a => exact ⟨a, rfl⟩
      have hig := hidxget i a ha
      rw [hij] at hig
      rcases findIdx?_some_spec _ _ j hig.symm with ⟨hjl, _, _, _⟩
      simpa using hjl
    have hbound : ∀ j ∈ idxs, ∃ s,
        (keypairs.map (fun keypair => keypair.sign (serialize message))).get? j
          = some s := by
      intro j hj
      rcases List.mem_iff_get?.mp hj with ⟨i, hij⟩
      have hjk := hjlt i j hij
      cases hu : (keypairs.map (fun keypair => keypair.sign (serialize message))).get? j with
      | none =>
        rw [List.get?_eq_none] at hu
        simp only [List.length_map] at hu
        omega
      | some s => exact ⟨s, rfl⟩
    rcases option_mapM_isSome _ _ hbound with ⟨sigs, hsigs⟩
    have hsigs2 : idxs.mapM (fun index =>
        (keypairs.map (fun keypair => keypair.sign (serialize message))).get? index)
          = some sigs := hsigs
    rw [hsigs2]
    rcases option_mapM_eq_some _ _ sigs hsigs with ⟨hsiglen, hsigget⟩
    refine ⟨⟨sigs, message⟩, rfl, rfl,
      by show sigs.length = message.header.num_required_signatures; omega, ?_⟩
    intro i a ha
    have hig := hidxget i a ha
    rcases hsome a (List.get?_mem ha) with ⟨j, hj⟩
    rw [hj] at hig
    rcases findIdx?_some_spec _ _ j hj with ⟨hjl, key, hkey, hkeyeq⟩
    have hkeya : key = a := by simpa using hkeyeq
    cases hkp : keypairs.get? j with
    | none =>
      exfalso
      rw [List.get?_eq_none] at hkp
      simp only [List.length_map] at hjl
      omega
    | some kp =>
      have hmapget : (keypairs.map (fun x => x.pubkey)).get? j = some kp.pubkey := by
        rw [List.get?_map, hkp]
        rfl
      rw [hmapget] at hkey
      have hpk : kp.pubkey = a := by
        have hk : kp.pubkey = key := by simpa using hkey
        rw [hk, hkeya]
      have hsig_i := hsigget i j hig
      have hun : (keypairs.map (fun keypair => keypair.sign (serialize message))).get? j
          = some (kp.sign (serialize message)) := by
        rw [List.get?_map, hkp]
        rfl
      exact ⟨kp, List.get?_mem hkp, hpk,
        by show sigs.get? i = some (kp.sign (serialize message)); rw [hsig_i, hun]⟩

/-- Witness for C1: required signers `[A, B]` with identities supplied in the
reversed order `[B, A]`; every hypothesis is discharged at this concrete input
and the signing protocol succeeds with a correctly reordered transaction. -/
theorem try_new_signing_witness :
    ((VersionedMessage.Legacy
        ⟨⟨2, 0, 0⟩, [⟨[1]⟩, ⟨[2]⟩], ⟨[]⟩, []⟩).static_account_keys.take
          (VersionedMessage.Legacy
            ⟨⟨2, 0, 0⟩, [⟨[1]⟩, ⟨[2]⟩], ⟨[]⟩, []⟩).header.num_required_signatures
        = [⟨[1]⟩, ⟨[2]⟩])
    ∧ ([(⟨[1]⟩ : Pubkey), ⟨[2]⟩].length
        = (VersionedMessage.Legacy
            ⟨⟨2, 0, 0⟩, [⟨[1]⟩, ⟨[2]⟩], ⟨[]⟩, []⟩).header.num_required_signatures)
    ∧ ([(⟨[1]⟩ : Pubkey), ⟨[2]⟩].Nodup)
    ∧ ([(⟨⟨[2]⟩, fun _ => 20⟩ : Signer Nat), ⟨⟨[1]⟩, fun _ => 10⟩].length
        = (VersionedMessage.Legacy
            ⟨⟨2, 0, 0⟩, [⟨[1]⟩, ⟨[2]⟩], ⟨[]⟩, []⟩).header.num_required_signatures)
    ∧ (∃ tx, VersionedTransaction.try_new (fun _ => ([] : List Nat))
          (VersionedMessage.Legacy ⟨⟨2, 0, 0⟩, [⟨[1]⟩, ⟨[2]⟩], ⟨[]⟩, []⟩)
          [⟨⟨[2]⟩, fun _ => 20⟩, ⟨⟨[1]⟩, fun _ => 10⟩] = .ok tx
        ∧ tx.message = VersionedMessage.Legacy ⟨⟨2, 0, 0⟩, [⟨[1]⟩, ⟨[2]⟩], ⟨[]⟩, []⟩
        ∧ tx.signatures.length
            = (VersionedMessage.Legacy
                ⟨⟨2, 0, 0⟩, [⟨[1]⟩, ⟨[2]⟩], ⟨[]⟩, []⟩).header.num_required_signatures
        ∧ ∀ i a, ([(⟨[1]⟩ : Pubkey), ⟨[2]⟩] : List Pubkey).get? i = some a →
            ∃ kp ∈ ([⟨⟨[2]⟩, fun _ => 20⟩, ⟨⟨[1]⟩, fun _ => 10⟩] : List (Signer Nat)),
              kp.pubkey = a
              ∧ tx.signatures.get? i
                  = some (kp.sign ((fun _ => ([] : List Nat))
                      (VersionedMessage.Legacy ⟨⟨2, 0, 0⟩, [⟨[1]⟩, ⟨[2]⟩], ⟨[]⟩, []⟩)))) :=
  ⟨rfl, rfl, by decide, rfl,
    (try_new_signing_spec (fun _ => ([] : List Nat))
      (VersionedMessage.Legacy ⟨⟨2, 0, 0⟩, [⟨[1]⟩, ⟨[2]⟩], ⟨[]⟩, []⟩)
      [⟨⟨[2]⟩, fun _ => 20⟩, ⟨⟨[1]⟩, fun _ => 10⟩]
      [⟨[1]⟩, ⟨[2]⟩] rfl rfl (by decide)).2.2.2 rfl
      (by
        intro a ha
        rcases List.mem_cons.mp ha with h1 | h2
        · exact ⟨⟨⟨[1]⟩, fun _ => 10⟩, by simp, by rw [h1]⟩
        · rcases List.mem_cons.mp h2 with h3 | h4
          · exact ⟨⟨⟨[2]⟩, fun _ => 20⟩, by simp, by rw [h3]⟩
          · cases h4)⟩

theorem getD_append_add (pre l : List Nat) (k d : Nat) :
    (pre ++ l).getD (pre.length + k) d = l.getD k d := by
  rw [List.getD_append_right _ _ _ _ (by omega)]
  congr 1
  omega

theorem u16_le_bytes_length (v : Nat) : (u16_le_bytes v).length = 2 := rfl

theorem read_u16_at (pre rest : List Nat) (v : Nat) :
    read_u16 pre.length (pre ++ (u16_le_bytes v ++ rest)) = .ok (v % 65536, pre.length + 2) := by
  unfold read_u16
  rw [if_pos (by
    simp only [List.length_append, u16_le_bytes, List.length_cons, List.length_nil]
    omega)]
  have h0 : (pre ++ (u16_le_bytes v ++ rest)).getD (pre.length + 0) 0 = v % 256 := by
    rw [getD_append_add]
    rfl
  have h1 : (pre ++ (u16_le_bytes v ++ rest)).getD (pre.length + 1) 0 = v / 256 % 256 := by
    rw [getD_append_add]
    rfl
  rw [show pre.length = pre.length + 0 from rfl, h0]
  rw [show pre.length + 0 + 1 = pre.length + 1 from rfl, h1]
  have : v % 256 + 256 * (v / 256 % 256) = v % 65536 := by omega
  rw [this]

theorem read_u8_at (pre rest : List Nat) (b : Nat) :
    read_u8 pre.length (pre ++ (b :: rest)) = .ok (b, pre.length + 1) := by
  unfold read_u8
  rw [if_pos (by
    simp only [List.length_append, List.length_cons]
    omega)]
  have h0 : (pre ++ (b :: rest)).getD (pre.length + 0) 0 = b := by
    rw [getD_append_add]
    rfl
  rw [show pre.length = pre.length + 0 from rfl, h0]

theorem read_pubkey_at (pre rest : List Nat) (pk : Pubkey) (h : pk.bytes.length = 32) :
    read_pubkey pre.length (pre ++ (pk.bytes ++ rest)) = .ok (pk, pre.length + 32) := by
  unfold read_pubkey
  rw [if_pos (by
    simp only [List.length_append]
    omega)]
  have hdrop : (pre ++ (pk.bytes ++ rest)).drop pre.length = pk.bytes ++ rest :=
    List.drop_left ..
  rw [hdrop]
  have htake : (pk.bytes ++ rest).take 32 = pk.bytes := by
    rw [← h]
    exact List.take_left ..
  rw [htake]

theorem read_slice_at (pre rest d : List Nat) (n : Nat) (h : d.length = n) :
    read_slice pre.length (pre ++ (d ++ rest)) n = .ok (d, pre.length + n) := by
  unfold read_slice
  rw [if_pos (by
    simp only [List.length_append]
    omega)]
  have hdrop : (pre ++ (d ++ rest)).drop pre.length = d ++ rest := List.drop_left ..
  rw [hdrop]
  have htake : (d ++ rest).take n = d := by
    rw [← h]
    exact List.take_left ..
  rw [htake]

theorem serialize_account_meta_length (a : AccountMeta) (h : a.pubkey.bytes.length = 32) :
    (serialize_account_meta a).length = 33 := by
  simp [serialize_account_meta, h]

theorem flatMap_metas_length (accounts : List AccountMeta)
    (h : ∀ a ∈ accounts, a.pubkey.bytes.length = 32) :
    (accounts.flatMap serialize_account_meta).length = 33 * accounts.length := by
  induction accounts with
  | nil => rfl
  | cons a rest ih =>
    rw [List.flatMap_cons, List.length_append,
      serialize_account_meta_length a (h a (List.mem_cons_self a rest)),
      ih (fun x hx => h x (List.mem_cons_of_mem a hx))]
    simp
    ring

theorem account_meta_byte_flags (a : AccountMeta) :
    (decide (account_meta_byte a % 2 = 1) = a.is_signer)
      ∧ (decide (account_meta_byte a / 2 % 2 = 1) = a.is_writable) := by
  cases hs : a.is_signer <;> cases hw : a.is_writable <;>
    simp [account_meta_byte, hs, hw]

theorem read_account_metas_at (accounts : List AccountMeta) :
    ∀ (pre rest : List Nat), (∀ a ∈ accounts, a.pubkey.bytes.length = 32) →
      read_account_metas (pre ++ (accounts.flatMap serialize_account_meta ++ rest))
          accounts.length pre.length
        = .ok (accounts, pre.length + 33 * accounts.length) := by
  induction accounts with
  | nil =>
    intro pre rest h
    simp [read_account_metas]
  | cons a accounts ih =>
    intro pre rest h
    have h32 : a.pubkey.bytes.length = 32 := h a (List.mem_cons_self a accounts)
    have hbuf : pre ++ ((a :: accounts).flatMap serialize_account_meta ++ rest)
        = pre ++ (account_meta_byte a
            :: (a.pubkey.bytes ++ (accounts.flatMap serialize_account_meta ++ rest))) := by
      simp [serialize_account_meta, List.flatMap_cons, List.append_assoc]
    rw [hbuf, List.length_cons]
    simp only [read_account_metas]
    rw [read_u8_at]
    simp only []
    have hbuf2 : pre ++ (account_meta_byte a
          :: (a.pubkey.bytes ++ (accounts.flatMap serialize_account_meta ++ rest)))
        = (pre ++ [account_meta_byte a])
            ++ (a.pubkey.bytes ++ (accounts.flatMap serialize_account_meta ++ rest)) := by
      simp [List.append_assoc]
    have hlen1 : pre.length + 1 = (pre ++ [account_meta_byte a]).length := by simp
    rw [hbuf2, hlen1, read_pubkey_at _ _ _ h32]
    simp only []
    have hbuf3 : (pre ++ [account_meta_byte a])
          ++ (a.pubkey.bytes ++ (accounts.flatMap serialize_account_meta ++ rest))
        = ((pre ++ [account_meta_byte a]) ++ a.pubkey.bytes)
            ++ (accounts.flatMap serialize_account_meta ++ rest) := by
      simp [List.append_assoc]
    have hlen2 : (pre ++ [account_meta_byte a]).length + 32
        = ((pre ++ [account_meta_byte a]) ++ a.pubkey.bytes).length := by
      simp [h32]
    rw [hbuf3, hlen2, ih _ _ (fun x hx => h x (List.mem_cons_of_mem a hx))]
    simp only []
    have hmeta : (AccountMeta.mk a.pubkey (decide (account_meta_byte a % 2 = 1))
        (decide (account_meta_byte a / 2 % 2 = 1))) = a := by
      rw [(account_meta_byte_flags a).1, (account_meta_byte_flags a).2]
    rw [hmeta]
    have hcur : ((pre ++ [account_meta_byte a]) ++ a.pubkey.bytes).length
          + 33 * accounts.length
        = pre.length + 33 * (accounts.length + 1) := by
      simp only [List.length_append, List.length_cons, List.length_nil, h32]
      omega
    rw [hcur]

theorem parse_instruction_at_spec (pre rest : List Nat) (ins : Instruction)
    (h32p : ins.program_id.bytes.length = 32)
    (h32a : ∀ a ∈ ins.accounts, a.pubkey.bytes.length = 32)
    (hacc : ins.accounts.length < 65536)
    (hdata : ins.data.length < 65536) :
    parse_instruction_at pre.length (pre ++ (instruction_block ins ++ rest)) = .ok ins := by
  have hbuf : pre ++ (instruction_block ins ++ rest)
      = pre ++ (u16_le_bytes ins.accounts.length
          ++ ((ins.accounts.flatMap serialize_account_meta)
            ++ (ins.program_id.bytes
              ++ (u16_le_bytes ins.data.length ++ (ins.data ++ rest))))) := by
    simp [instruction_block, List.append_assoc]
  rw [hbuf]
  unfold parse_instruction_at
  rw [read_u16_at]
  simp only [Nat.mod_eq_of_lt hacc]
  have hbuf2 : pre ++ (u16_le_bytes ins.accounts.length
        ++ ((ins.accounts.flatMap serialize_account_meta)
          ++ (ins.program_id.bytes
            ++ (u16_le_bytes ins.data.length ++ (ins.data ++ rest)))))
      = (pre ++ u16_le_bytes ins.accounts.length)
          ++ ((ins.accounts.flatMap serialize_account_meta)
            ++ (ins.program_id.bytes
              ++ (u16_le_bytes ins.data.length ++ (ins.data ++ rest)))) := by
    simp [List.append_assoc]
  have hlen2 : pre.length + 2 = (pre ++ u16_le_bytes ins.accounts.length).length := by
    simp [u16_le_bytes]
  rw [hbuf2, hlen2, read_account_metas_at _ _ _ h32a]
  simp only []
  have hbuf3 : (pre ++ u16_le_bytes ins.accounts.length)
        ++ ((ins.accounts.flatMap serialize_account_meta)
          ++ (ins.program_id.bytes
            ++ (u16_le_bytes ins.data.length ++ (ins.data ++ rest))))
      = ((pre ++ u16_le_bytes ins.accounts.length)
          ++ ins.accounts.flatMap serialize_account_meta)
          ++ (ins.program_id.bytes
            ++ (u16_le_bytes ins.data.length ++ (ins.data ++ rest))) := by
    simp [List.append_assoc]
  have hlen3 : (pre ++ u16_le_bytes ins.accounts.length).length + 33 * ins.accounts.length
      = ((pre ++ u16_le_bytes ins.accounts.length)
          ++ ins.accounts.flatMap serialize_account_meta).length := by
    rw [List.length_append _ (ins.accounts.flatMap serialize_account_meta),
      flatMap_metas_length _ h32a]
  rw [hbuf3, hlen3, read_pubkey_at _ _ _ h32p]
  simp only []
  have hbuf4 : ((pre ++ u16_le_bytes ins.accounts.length)
        ++ ins.accounts.flatMap serialize_account_meta)
        ++ (ins.program_id.bytes
          ++ (u16_le_bytes ins.data.length ++ (ins.data ++ rest)))
      = (((pre ++ u16_le_bytes ins.accounts.length)
          ++ ins.accounts.flatMap serialize_account_meta) ++ ins.program_id.bytes)
          ++ (u16_le_bytes ins.data.length ++ (ins.data ++ rest)) := by
    simp [List.append_assoc]
  have hlen4 : (((pre ++ u16_le_bytes ins.accounts.length)
        ++ ins.accounts.flatMap serialize_account_meta)).length + 32
      = (((pre ++ u16_le_bytes ins.accounts.length)
          ++ ins.accounts.flatMap serialize_account_meta) ++ ins.program_id.bytes).length := by
    rw [List.length_append _ ins.program_id.bytes, h32p]
  rw [hbuf4, hlen4, read_u16_at]
  simp only [Nat.mod_eq_of_lt hdata]
  have hbuf5 : (((pre ++ u16_le_bytes ins.accounts.length)
        ++ ins.accounts.flatMap serialize_account_meta) ++ ins.program_id.bytes)
        ++ (u16_le_bytes ins.data.length ++ (ins.data ++ rest))
      = ((((pre ++ u16_le_bytes ins.accounts.length)
          ++ ins.accounts.flatMap serialize_account_meta) ++ ins.program_id.bytes)
          ++ u16_le_bytes ins.data.length)
          ++ (ins.data ++ rest) := by
    simp [List.append_assoc]
  have hlen5 : ((((pre ++ u16_le_bytes ins.accounts.length)
        ++ ins.accounts.flatMap serialize_account_meta) ++ ins.program_id.bytes)).length + 2
      = ((((pre ++ u16_le_bytes ins.accounts.length)
          ++ ins.accounts.flatMap serialize_account_meta) ++ ins.program_id.bytes)
          ++ u16_le_bytes ins.data.length).length := by
    rw [List.length_append _ (u16_le_bytes ins.data.length), u16_le_bytes_length]
  rw [hbuf5, hlen5, read_slice_at _ _ _ _ rfl]

theorem flatMap_length_const {α : Type _} (f : α → List Nat) (c : Nat) :
    ∀ l : List α, (∀ a ∈ l, (f a).length = c) → (l.flatMap f).length = c * l.length := by
  intro l
  induction l with
  | nil => intro _; simp
  | cons a l ih =>
    intro h
    rw [List.flatMap_cons, List.length_append, h a (List.mem_cons_self a l),
      ih (fun x hx => h x (List.mem_cons_of_mem a hx)), List.length_cons]
    ring

theorem length_flatMap_eq_sum {α : Type _} (g : α → List Nat) (l : List α) :
    (l.flatMap g).length = (l.map (fun a => (g a).length)).sum := by
  induction l with
  | nil => rfl
  | cons a l ih => simp [List.flatMap_cons, ih]

theorem sum_map_take_le {α : Type _} (f : α → Nat) (l : List α) (i : Nat) :
    ((l.take i).map f).sum ≤ (l.map f).sum := by
  conv_rhs => rw [← List.take_append_drop i l]
  rw [List.map_append, List.sum_append]
  omega

theorem offsets_split (f : Nat → List Nat) (h2 : ∀ j, (f j).length = 2) (n i : Nat)
    (hi : i < n) :
    ∃ pre suf, (List.range n).flatMap f = pre ++ (f i ++ suf) ∧ pre.length = 2 * i := by
  refine ⟨(List.range i).flatMap f,
    ((List.range (n - i - 1)).map (fun j => i + (j + 1))).flatMap f, ?_, ?_⟩
  · have hn : n = i + (n - i) := by omega
    conv_lhs => rw [hn]
    rw [List.range_add, List.flatMap_append]
    congr 1
    have hk : n - i = (n - i - 1) + 1 := by omega
    rw [hk, List.range_succ_eq_map, List.map_cons, List.flatMap_cons]
    have hfun : ((i + ·) ∘ Nat.succ) = (fun j => i + (j + 1)) := by
      funext j
      show i + Nat.succ j = i + (j + 1)
      omega
    have hred : n - i - 1 + 1 - 1 = n - i - 1 := by omega
    congr 1
    rw [List.map_map, hfun, hred]
  · rw [flatMap_length_const f 2 _ (fun a _ => h2 a), List.length_range]

theorem flatMap_split_get {α : Type _} (g : α → List Nat) (l : List α) (i : Nat) (a : α)
    (ha : l.get? i = some a) :
    l.flatMap g
      = (l.take i).flatMap g ++ (g a ++ (l.drop (i + 1)).flatMap g) := by
  have hlt : i < l.length := by
    by_contra hge
    rw [List.get?_eq_getElem?, List.getElem?_eq_none (by omega)] at ha
    cases ha
  have hget : l[i] = a := by
    rw [List.get?_eq_getElem?, List.getElem?_eq_getElem hlt] at ha
    exact Option.some.inj ha
  have hdrop : l.drop i = a :: l.drop (i + 1) := by
    rw [List.drop_eq_getElem_cons hlt, hget]
  calc l.flatMap g = (l.take i ++ l.drop i).flatMap g := by rw [List.take_append_drop]
    _ = (l.take i).flatMap g ++ (g a ++ (l.drop (i + 1)).flatMap g) := by
        rw [hdrop, List.flatMap_append, List.flatMap_cons]

theorem offsets_bytes_length (instrs : List Instruction) :
    ((List.range instrs.length).flatMap
        (fun j => u16_le_bytes (block_offset instrs j))).length = 2 * instrs.length := by
  rw [flatMap_length_const _ 2 _ (fun a _ => u16_le_bytes_length _), List.length_range]

theorem serialize_instructions_length (instrs : List Instruction) :
    (serialize_instructions instrs).length
      = 2 + 2 * instrs.length + (instrs.flatMap instruction_block).length := by
  simp only [serialize_instructions, List.length_append, offsets_bytes_length,
    u16_le_bytes_length]

/-- C6 (amended): decoding index `i` of the encoder's buffer reproduces call
`i` exactly, for every call list whose encoded buffer is at most 65535 bytes —
so that the `u16` count and every `u16` block offset are exact — with 32-byte
addresses and per-call account/data counts below `2 ^ 16`.  (At 65535 calls
the header alone is 131072 bytes, the `u16` offsets wrap, and the round trip
fails; see the counterexample.) -/
theorem serialize_deserialize_roundtrip (instrs : List Instruction)
    (hwf : ∀ ins ∈ instrs, ins.program_id.bytes.length = 32
      ∧ ins.accounts.length < 65536 ∧ ins.data.length < 65536
      ∧ ∀ a ∈ ins.accounts, a.pubkey.bytes.length = 32)
    (hsize : (serialize_instructions instrs).length ≤ 65535) :
    ∀ i ins, instrs.get? i = some ins →
      deserialize_instruction i (serialize_instructions instrs) = .ok ins := by
  intro i ins hins
  have hilt : i < instrs.length := by
    by_contra hge
    rw [List.get?_eq_getElem?, List.getElem?_eq_none (by omega)] at hins
    cases hins
  have hlen_buf := serialize_instructions_length instrs
  have hn : instrs.length < 65536 := by omega
  have hblocks : (instrs.flatMap instruction_block).length
      = (instrs.map (fun b => (instruction_block b).length)).sum :=
    length_flatMap_eq_sum _ _
  have hsum := sum_map_take_le (fun b => (instruction_block b).length) instrs i
  have hbo_le : block_offset instrs i ≤ (serialize_instructions instrs).length := by
    rw [block_offset, hlen_buf, hblocks]
    omega
  unfold deserialize_instruction
  have hcount : read_u16 0 (serialize_instructions instrs)
      = .ok (instrs.length % 65536, 2) := by
    have h := read_u16_at []
      (((List.range instrs.length).flatMap
        (fun j => u16_le_bytes (block_offset instrs j)))
        ++ instrs.flatMap instruction_block) instrs.length
    simpa [serialize_instructions, List.append_assoc] using h
  rw [hcount]
  simp only [Nat.mod_eq_of_lt hn]
  rw [if_neg (by omega)]
  obtain ⟨opre, osuf, hosplit, holen⟩ := offsets_split
    (fun j => u16_le_bytes (block_offset instrs j)) (fun j => rfl) instrs.length i hilt
  have hb2 : serialize_instructions instrs
      = (u16_le_bytes instrs.length ++ opre)
          ++ (u16_le_bytes (block_offset instrs i)
            ++ (osuf ++ instrs.flatMap instruction_block)) := by
    simp [serialize_instructions, hosplit, List.append_assoc]
  have hoffpos : 2 + i * 2 = (u16_le_bytes instrs.length ++ opre).length := by
    simp only [List.length_append, u16_le_bytes_length, holen]
    omega
  rw [hb2, hoffpos, read_u16_at]
  simp only [Nat.mod_eq_of_lt (show block_offset instrs i < 65536 by omega)]
  have hbsplit := flatMap_split_get instruction_block instrs i ins hins
  rcases hwf ins (List.get?_mem hins) with ⟨h32p, hacc, hdata, h32a⟩
  have hb4 : (u16_le_bytes instrs.length ++ opre)
        ++ (u16_le_bytes (block_offset instrs i)
          ++ (osuf ++ instrs.flatMap instruction_block))
      = ((u16_le_bytes instrs.length
          ++ ((List.range instrs.length).flatMap
            (fun j => u16_le_bytes (block_offset instrs j))))
          ++ (instrs.take i).flatMap instruction_block)
          ++ (instruction_block ins
            ++ ((instrs.drop (i + 1)).flatMap instruction_block)) := by
    simp [hosplit, hbsplit, List.append_assoc]
  have hb4len : ((u16_le_bytes instrs.length
        ++ ((List.range instrs.length).flatMap
          (fun j => u16_le_bytes (block_offset instrs j))))
        ++ (instrs.take i).flatMap instruction_block).length
      = block_offset instrs i := by
    have htake : ((instrs.take i).flatMap instruction_block).length
        = ((instrs.take i).map (fun b => (instruction_block b).length)).sum :=
      length_flatMap_eq_sum _ _
    rw [List.length_append, List.length_append, u16_le_bytes_length,
      offsets_bytes_length, htake, block_offset]
  rw [hb4, ← hb4len]
  exact parse_instruction_at_spec _ _ ins h32p h32a hacc hdata

theorem read_account_metas_length (data : List Nat) :
    ∀ n cur accs cur2, read_account_metas data n cur = .ok (accs, cur2) →
      accs.length = n := by
  intro n
  induction n with
  | zero =>
    intro cur accs cur2 h
    simp only [read_account_metas, Except.ok.injEq, Prod.mk.injEq] at h
    rw [← h.1]
    rfl
  | succ n ih =>
    intro cur accs cur2 h
    simp only [read_account_metas] at h
    cases hu : read_u8 cur data with
    | error e => rw [hu] at h; cases h
    | ok p =>
      obtain ⟨b, cur1⟩ := p
      rw [hu] at h
      simp only [] at h
      cases hp : read_pubkey cur1 data with
      | error e => rw [hp] at h; cases h
      | ok q =>
        obtain ⟨pk, cur2'⟩ := q
        rw [hp] at h
        simp only [] at h
        cases hm : read_account_metas data n cur2' with
        | error e => rw [hm] at h; cases h
        | ok r =>
          obtain ⟨accs', cur3⟩ := r
          rw [hm] at h
          simp only [Except.ok.injEq, Prod.mk.injEq] at h
          rw [← h.1, List.length_cons, ih cur2' accs' cur3 hm]

theorem parse_instruction_at_accounts_length (start : Nat) (data : List Nat)
    (n cur : Nat) (h : read_u16 start data = .ok (n, cur)) (ins : Instruction)
    (hok : parse_instruction_at start data = .ok ins) :
    ins.accounts.length = n := by
  unfold parse_instruction_at at hok
  rw [h] at hok
  simp only [] at hok
  cases hra : read_account_metas data n cur with
  | error e => rw [hra] at hok; cases hok
  | ok p =>
    obtain ⟨accs, cur2⟩ := p
    rw [hra] at hok
    simp only [] at hok
    cases hrp : read_pubkey cur2 data with
    | error e => rw [hrp] at hok; cases hok
    | ok q =>
      obtain ⟨pid, cur3⟩ := q
      rw [hrp] at hok
      simp only [] at hok
      cases hrd : read_u16 cur3 data with
      | error e => rw [hrd] at hok; cases hok
      | ok r =>
        obtain ⟨dlen, cur4⟩ := r
        rw [hrd] at hok
        simp only [] at hok
        cases hrs : read_slice cur4 data dlen with
        | error e => rw [hrs] at hok; cases hok
        | ok s =>
          obtain ⟨d, cur5⟩ := s
          rw [hrs] at hok
          simp only [Except.ok.injEq] at hok
          rw [← hok]
          exact read_account_metas_length data n cur accs cur2 hra

theorem deserialize_instruction_parse (index : Nat) (data : List Nat)
    (n cur start cur2 : Nat) (h : read_u16 0 data = .ok (n, cur)) (hidx : index < n)
    (hoff : read_u16 (cur + index * 2) data = .ok (start, cur2)) :
    deserialize_instruction index data = parse_instruction_at start data := by
  unfold deserialize_instruction
  rw [h]
  simp only []
  rw [if_neg (by omega), hoff]

/-- C6 counterexample: with 65535 calls (the `u16`-counter boundary the claim
includes) the round trip fails.  The offset table alone makes the header
`2 + 2 * 65535 = 131072` bytes, so every backfilled `u16` offset wraps
(`131072 % 65536 = 0`); decoding index 0 then re-parses the header as an
instruction block, reading the count bytes `0xFFFF` as 65535 "accounts", and
cannot reproduce call 0 (65535 copies of a minimal call with no accounts and
no data). -/
theorem instructions_sysvar_roundtrip_counterexample :
    (List.replicate 65535 (Instruction.mk ⟨List.replicate 32 0⟩ [] [])).length = 65535
    ∧ (List.replicate 65535 (Instruction.mk ⟨List.replicate 32 0⟩ [] [])).get? 0
        = some (Instruction.mk ⟨List.replicate 32 0⟩ [] [])
    ∧ deserialize_instruction 0
        (serialize_instructions
          (List.replicate 65535 (Instruction.mk ⟨List.replicate 32 0⟩ [] [])))
        ≠ .ok (Instruction.mk ⟨List.replicate 32 0⟩ [] []) := by
  refine ⟨by rw [List.length_replicate], by rw [List.replicate_succ]; rfl, ?_⟩
  generalize hL : List.replicate 65535 (Instruction.mk ⟨List.replicate 32 0⟩ [] []) = L
  have hLlen : L.length = 65535 := by rw [← hL, List.length_replicate]
  have hcount : read_u16 0 (serialize_instructions L) = .ok (65535, 2) := by
    have h := read_u16_at []
      (((List.range L.length).flatMap (fun j => u16_le_bytes (block_offset L j)))
        ++ L.flatMap instruction_block) L.length
    rw [List.length_nil, List.nil_append] at h
    have hser : serialize_instructions L
        = u16_le_bytes L.length
            ++ (((List.range L.length).flatMap (fun j => u16_le_bytes (block_offset L j)))
              ++ L.flatMap instruction_block) := by
      rw [serialize_instructions, List.append_assoc]
    rw [hser, h, hLlen]
  have hbo0 : block_offset L 0 = 131072 := by
    rw [block_offset, hLlen, List.take_zero, List.map_nil, List.sum_nil]
    norm_num
  obtain ⟨opre, osuf, hosplit, holen⟩ := offsets_split
    (fun j => u16_le_bytes (block_offset L j)) (fun j => u16_le_bytes_length _)
    L.length 0 (by omega)
  have hopre : opre = [] := List.eq_nil_of_length_eq_zero (by omega)
  subst hopre
  rw [List.nil_append] at hosplit
  have hoffread : read_u16 2 (serialize_instructions L) = .ok (0, 4) := by
    have h := read_u16_at (u16_le_bytes L.length)
      (osuf ++ L.flatMap instruction_block) (block_offset L 0)
    rw [u16_le_bytes_length] at h
    have hser2 : serialize_instructions L
        = u16_le_bytes L.length
            ++ (u16_le_bytes (block_offset L 0)
              ++ (osuf ++ L.flatMap instruction_block)) := by
      rw [serialize_instructions, List.append_assoc, hosplit, List.append_assoc]
    rw [hser2, h, hbo0]
  have hparse : parse_instruction_at 0 (serialize_instructions L)
      ≠ .ok (Instruction.mk ⟨List.replicate 32 0⟩ [] []) := by
    intro hok
    have hlen0 := parse_instruction_at_accounts_length 0 (serialize_instructions L)
      65535 2 hcount (Instruction.mk ⟨List.replicate 32 0⟩ [] []) hok
    simp at hlen0
  intro heq
  have hd := deserialize_instruction_parse 0 (serialize_instructions L) 65535 2 0 4
    hcount (by omega) hoffread
  rw [hd] at heq
  exact hparse heq

/-- Witness for C6 (amended): a concrete one-call list (one signer account,
two data bytes) satisfies the size and well-formedness hypotheses and decodes
back exactly. -/
theorem serialize_deserialize_roundtrip_witness :
    (∀ ins ∈ [Instruction.mk ⟨List.replicate 32 2⟩
        [AccountMeta.mk ⟨List.replicate 32 3⟩ true false] [7, 8]],
      ins.program_id.bytes.length = 32
        ∧ ins.accounts.length < 65536 ∧ ins.data.length < 65536
        ∧ ∀ a ∈ ins.accounts, a.pubkey.bytes.length = 32)
    ∧ (serialize_instructions [Instruction.mk ⟨List.replicate 32 2⟩
        [AccountMeta.mk ⟨List.replicate 32 3⟩ true false] [7, 8]]).length ≤ 65535
    ∧ deserialize_instruction 0
        (serialize_instructions [Instruction.mk ⟨List.replicate 32 2⟩
          [AccountMeta.mk ⟨List.replicate 32 3⟩ true false] [7, 8]])
        = .ok (Instruction.mk ⟨List.replicate 32 2⟩
          [AccountMeta.mk ⟨List.replicate 32 3⟩ true false] [7, 8]) :=
  ⟨by decide, by decide,
    serialize_deserialize_roundtrip
      [Instruction.mk ⟨List.replicate 32 2⟩
        [AccountMeta.mk ⟨List.replicate 32 3⟩ true false] [7, 8]]
      (by decide) (by decide) 0
      (Instruction.mk ⟨List.replicate 32 2⟩
        [AccountMeta.mk ⟨List.replicate 32 3⟩ true false] [7, 8]) rfl⟩
